import Mathlib

/-!
Verification development for the AI-healing test harness.

Shallow embedding of the repository's core logic:
- `_parse_ollama_response` and its JSON-extraction strategies
  (src/utils/ai_healing_decorator.py),
- the failure hook `pytest_runtest_makereport`, the failure-count map and
  `_capture_ai_healing_context` (src/conftest.py),
- `capture_failure_context` (src/utils/ai_healing_decorator.py),
- `PerformanceMonitorAsync.get_average_metrics`, `save_metrics_to_csv`,
  `save_metrics_to_json` (src/utils/performance_monitor.py).

Python values are modelled as follows: JSON values and Python numbers are
exact rationals (`Rat`); Python `dict` is an insertion-ordered association
list with in-place update; file writes are modelled by returning the payload
that would be written; exceptions are modelled with `Option`/explicit error
branches.
-/

set_option maxHeartbeats 1000000
set_option maxRecDepth 100000
set_option linter.unnecessarySeqFocus false

/-- JSON values as produced by Python `json.loads`. Numbers (int and float
alike) are modelled exactly as rationals; `NaN`/`Infinity` literals are not
modelled. Objects carry Python-dict semantics: insertion order with later
duplicate keys overwriting in place. -/
inductive Json where
  | null : Json
  | bool (b : Bool) : Json
  | num (q : Rat) : Json
  | str (s : String) : Json
  | arr (elems : List Json) : Json
  | obj (fields : List (String × Json)) : Json
deriving Repr, Inhabited

/-- First-match lookup in an association list keyed by strings. -/
def lookupStr {α : Type} (kvs : List (String × α)) (k : String) : Option α :=
  match kvs with
  | [] => none
  | (k', v) :: rest => if k' = k then some v else lookupStr rest k

/-- Python dict insertion: overwrite in place when the key exists, append
otherwise. -/
def pyDictInsert (kvs : List (String × Json)) (k : String) (v : Json) :
    List (String × Json) :=
  match kvs with
  | [] => [(k, v)]
  | (k', v') :: rest =>
    if k' = k then (k', v) :: rest else (k', v') :: pyDictInsert rest k v

/-- Field lookup on a JSON object; `none` on non-objects. -/
def jsonField (j : Json) (k : String) : Option Json :=
  match j with
  | .obj kvs => lookupStr kvs k
  | _ => none

/-- Numeric field lookup: `some q` only when the field exists and is a number. -/
def jsonNumField (j : Json) (k : String) : Option Rat :=
  match jsonField j k with
  | some (.num q) => some q
  | _ => none

/-- String field lookup: `some s` only when the field exists and is a string. -/
def jsonStrField (j : Json) (k : String) : Option String :=
  match jsonField j k with
  | some (.str s) => some s
  | _ => none

/-- JSON whitespace accepted by `json.loads` between tokens. -/
def isJsonWs (c : Char) : Bool := c = ' ' || c = '\t' || c = '\n' || c = '\r'

/-- Skip JSON whitespace. -/
def skipJsonWs (l : List Char) : List Char := l.dropWhile isJsonWs

/-- ASCII digit test. -/
def isDigitChar (c : Char) : Bool := '0' ≤ c && c ≤ '9'

/-- Digit value of an ASCII digit. -/
def digitVal (c : Char) : Nat := c.toNat - '0'.toNat

/-- Value of a hexadecimal digit character, if it is one. -/
def hexVal (c : Char) : Option Nat :=
  let n := c.toNat
  if 48 ≤ n && n ≤ 57 then some (n - 48)
  else if 97 ≤ n && n ≤ 102 then some (n - 87)
  else if 65 ≤ n && n ≤ 70 then some (n - 55)
  else none

/-- One JSON string escape sequence (after the backslash). -/
def parseEscape : List Char → Option (Char × List Char)
  | [] => none
  | e :: r =>
    if e = '"' then some ('"', r)
    else if e = '\\' then some ('\\', r)
    else if e = '/' then some ('/', r)
    else if e = 'b' then some (Char.ofNat 8, r)
    else if e = 'f' then some (Char.ofNat 12, r)
    else if e = 'n' then some ('\n', r)
    else if e = 'r' then some ('\r', r)
    else if e = 't' then some ('\t', r)
    else if e = 'u' then
      match r with
      | h1 :: h2 :: h3 :: h4 :: r2 =>
        match hexVal h1, hexVal h2, hexVal h3, hexVal h4 with
        | some a, some b, some c, some d =>
          some (Char.ofNat (((a * 16 + b) * 16 + c) * 16 + d), r2)
        | _, _, _, _ => none
      | _ => none
    else none

/-- JSON string body after the opening quote: returns the decoded characters
and the input following the closing quote. Unescaped control characters are
rejected, matching `json.loads` strict mode. -/
def parseJStringContent : Nat → List Char → Option (List Char × List Char)
  | 0, _ => none
  | _, [] => none
  | fuel + 1, c :: rest =>
    if c = '"' then some ([], rest)
    else if c = '\\' then
      match parseEscape rest with
      | some (ch, r2) =>
        match parseJStringContent fuel r2 with
        | some (cs, r3) => some (ch :: cs, r3)
        | none => none
      | none => none
    else if c.toNat < 32 then none
    else
      match parseJStringContent fuel rest with
      | some (cs, r3) => some (c :: cs, r3)
      | none => none

/-- Longest digit prefix and the remainder. -/
def takeDigits (l : List Char) : List Char × List Char :=
  (l.takeWhile isDigitChar, l.dropWhile isDigitChar)

/-- Natural number denoted by a digit string. -/
def digitsToNat (ds : List Char) : Nat :=
  ds.foldl (fun n c => n * 10 + digitVal c) 0

/-- JSON number, following the grammar used by Python's `json` scanner:
`-?(0|[1-9][0-9]*)(\.[0-9]+)?([eE][+-]?[0-9]+)?`. An incomplete fraction or
exponent is left unconsumed (not an error), as the regex scanner does. -/
def parseJNumber (l : List Char) : Option (Rat × List Char) :=
  let signed : Bool × List Char :=
    match l with
    | '-' :: r => (true, r)
    | _ => (false, l)
  let neg := signed.1
  let l1 := signed.2
  let ipartParsed : Option (Nat × List Char) :=
    match l1 with
    | '0' :: r => some (0, r)
    | c :: _ =>
      if isDigitChar c then
        let td := takeDigits l1
        some (digitsToNat td.1, td.2)
      else none
    | [] => none
  match ipartParsed with
  | none => none
  | some (ip, l2) =>
    let fracParsed : Nat × Nat × List Char :=
      match l2 with
      | '.' :: r =>
        let td := takeDigits r
        match td.1 with
        | [] => (0, 0, l2)
        | ds => (digitsToNat ds, ds.length, td.2)
      | _ => (0, 0, l2)
    let fval := fracParsed.1
    let flen := fracParsed.2.1
    let l3 := fracParsed.2.2
    let expParsed : Int × List Char :=
      match l3 with
      | e :: r =>
        if e = 'e' || e = 'E' then
          let se : Bool × List Char :=
            match r with
            | '+' :: r2 => (false, r2)
            | '-' :: r2 => (true, r2)
            | _ => (false, r)
          let td := takeDigits se.2
          match td.1 with
          | [] => (0, l3)
          | ds =>
            let ev : Int := (digitsToNat ds : Int)
            ((if se.1 then -ev else ev), td.2)
        else (0, l3)
      | [] => (0, l3)
    let ev := expParsed.1
    let l4 := expParsed.2
    let mag : Rat := ((ip : Rat) + (fval : Rat) / (10 : Rat) ^ flen) * (10 : Rat) ^ ev
    some ((if neg then -mag else mag), l4)

mutual

/-- One JSON value; input must start at a non-whitespace character. -/
def parseJValue : Nat → List Char → Option (Json × List Char)
  | 0, _ => none
  | fuel + 1, l =>
    match l with
    | [] => none
    | c :: rest =>
      if c = '"' then
        match parseJStringContent (rest.length + 1) rest with
        | some (cs, r) => some (.str (String.mk cs), r)
        | none => none
      else if c = '{' then
        match skipJsonWs rest with
        | '}' :: r2 => some (.obj [], r2)
        | r2 => parseJObjBody fuel r2 []
      else if c = '[' then
        match skipJsonWs rest with
        | ']' :: r2 => some (.arr [], r2)
        | r2 => parseJArrBody fuel r2 []
      else if c = 't' then
        match l with
        | 't' :: 'r' :: 'u' :: 'e' :: r => some (.bool true, r)
        | _ => none
      else if c = 'f' then
        match l with
        | 'f' :: 'a' :: 'l' :: 's' :: 'e' :: r => some (.bool false, r)
        | _ => none
      else if c = 'n' then
        match l with
        | 'n' :: 'u' :: 'l' :: 'l' :: r => some (.null, r)
        | _ => none
      else
        match parseJNumber l with
        | some (q, r) => some (.num q, r)
        | none => none

/-- Object members after `{` (first member) or after a comma. -/
def parseJObjBody : Nat → List Char → List (String × Json) →
    Option (Json × List Char)
  | 0, _, _ => none
  | fuel + 1, l, acc =>
    match l with
    | '"' :: r =>
      match parseJStringContent (r.length + 1) r with
      | some (kcs, r2) =>
        match skipJsonWs r2 with
        | ':' :: r3 =>
          match parseJValue fuel (skipJsonWs r3) with
          | some (v, r4) =>
            let acc2 := pyDictInsert acc (String.mk kcs) v
            match skipJsonWs r4 with
            | ',' :: r5 => parseJObjBody fuel (skipJsonWs r5) acc2
            | '}' :: r5 => some (.obj acc2, r5)
            | _ => none
          | none => none
        | _ => none
      | none => none
    | _ => none

/-- Array elements after `[` (first element) or after a comma. -/
def parseJArrBody : Nat → List Char → List Json → Option (Json × List Char)
  | 0, _, _ => none
  | fuel + 1, l, acc =>
    match parseJValue fuel l with
    | some (v, r) =>
      match skipJsonWs r with
      | ',' :: r2 => parseJArrBody fuel (skipJsonWs r2) (acc ++ [v])
      | ']' :: r2 => some (.arr (acc ++ [v]), r2)
      | _ => none
    | none => none

end

/-- `json.loads` on a character list: one value, with surrounding whitespace
allowed and trailing non-whitespace rejected. -/
def jsonLoadsL (l : List Char) : Option Json :=
  let t := skipJsonWs l
  match parseJValue (t.length + 2) t with
  | some (j, r) => if skipJsonWs r = [] then some j else none
  | none => none

/-- `json.loads` on a string. -/
def jsonLoads (s : String) : Option Json := jsonLoadsL s.data

/-- ASCII whitespace matched by Python's regex `\s`. -/
def isReWs (c : Char) : Bool :=
  c = ' ' || c = '\t' || c = '\n' || c = '\r' || c = Char.ofNat 11 || c = Char.ofNat 12

/-- ASCII whitespace stripped by Python's `str.strip()`. -/
def isPyStripWs (c : Char) : Bool :=
  c = ' ' || c = '\t' || c = '\n' || c = '\r' || c = Char.ofNat 11 || c = Char.ofNat 12

/-- Python `str.strip()`. -/
def pyStripL (l : List Char) : List Char :=
  ((l.dropWhile isPyStripWs).reverse.dropWhile isPyStripWs).reverse

/-- The three-backtick fence delimiter. -/
def fenceChars : List Char := "```".data

/-- The literal `json` fence opener. -/
def fenceJsonChars : List Char := "```json".data

/-- Minimal-match scan of `.*?` up to a `}` that is followed by `\s*` and a
closing fence; returns the characters consumed by `.*?` (strictly inside the
braces). Mirrors the backtracking of `r'```json\s*({.*?})\s*```'`. -/
def closeBraceThenFence : List Char → Option (List Char)
  | [] => none
  | c :: rest =>
    if c = '}' && fenceChars.isPrefixOf (rest.dropWhile isReWs) then some []
    else
      match closeBraceThenFence rest with
      | some inner => some (c :: inner)
      | none => none

/-- Attempt strategy 1 (`r'```json\s*({.*?})\s*```'`) at the current position;
returns group 1 (the braced text) on success. -/
def tryFencedJsonAt (l : List Char) : Option (List Char) :=
  if fenceJsonChars.isPrefixOf l then
    match (l.drop fenceJsonChars.length).dropWhile isReWs with
    | '{' :: r2 =>
      match closeBraceThenFence r2 with
      | some inner => some ('{' :: (inner ++ ['}']))
      | none => none
    | _ => none
  else none

/-- `re.search` for strategy 1: leftmost position where the pattern matches. -/
def searchFencedJson : List Char → Option (List Char)
  | [] => none
  | c :: rest =>
    match tryFencedJsonAt (c :: rest) with
    | some g => some g
    | none => searchFencedJson rest

/-- Minimal-match scan of `.*?` up to the next fence, for `r'```(.*?)```'`. -/
def contentToFence : List Char → Option (List Char)
  | [] => none
  | c :: rest =>
    if fenceChars.isPrefixOf (c :: rest) then some []
    else
      match contentToFence rest with
      | some inner => some (c :: inner)
      | none => none

/-- Attempt strategy 2 (`r'```(.*?)```'`) at the current position. -/
def tryFencedAnyAt (l : List Char) : Option (List Char) :=
  if fenceChars.isPrefixOf l then contentToFence (l.drop fenceChars.length)
  else none

/-- `re.search` for strategy 2. -/
def searchFencedAny : List Char → Option (List Char)
  | [] => none
  | c :: rest =>
    match tryFencedAnyAt (c :: rest) with
    | some g => some g
    | none => searchFencedAny rest

/-- Consume characters up to and including the first occurrence of `target`;
returns the consumed span and the remainder. -/
def takeUpThrough (target : Char) : List Char → Option (List Char × List Char)
  | [] => none
  | c :: rest =>
    if c = target then some ([c], rest)
    else
      match takeUpThrough target rest with
      | some (u, r) => some (c :: u, r)
      | none => none

/-- Continuation of strategy 3 (`r'({\s*"[^"]+":.*?})'`) after an opening
brace: `\s*`, a non-empty quoted key immediately followed by `:`, then a
minimal `.*?` ending at the first `}`. Returns the matched characters after
the opening brace (including the closing brace). -/
def jsonLikeAfterBrace (l : List Char) : Option (List Char) :=
  let ws := l.takeWhile isReWs
  match l.dropWhile isReWs with
  | '"' :: r2 =>
    match r2.takeWhile (fun c => c ≠ '"') with
    | [] => none
    | key =>
      match r2.dropWhile (fun c => c ≠ '"') with
      | '"' :: ':' :: r4 =>
        match takeUpThrough '}' r4 with
        | some (u, _) => some (ws ++ '"' :: (key ++ '"' :: ':' :: u))
        | none => none
      | _ => none
  | _ => none

/-- `re.search` for strategy 3: leftmost `{` where the pattern matches. -/
def searchJsonLike : List Char → Option (List Char)
  | [] => none
  | c :: rest =>
    match (if c = '{' then (jsonLikeAfterBrace rest).map (fun m => '{' :: m) else none) with
    | some g => some g
    | none => searchJsonLike rest

/-- Candidate selection of `_parse_ollama_response` (strategies 1-4). -/
def chooseCandidate (l : List Char) : List Char :=
  match searchFencedJson l with
  | some g => g
  | none =>
    match searchFencedAny l with
    | some g => pyStripL g
    | none =>
      match searchJsonLike l with
      | some g => g
      | none => pyStripL l

/-- Strategy 5 cleanup: drop the leading run of non-`{` characters and the
trailing run of non-`}` characters. -/
def cleanCandidate (l : List Char) : List Char :=
  ((l.dropWhile (fun c => c ≠ '{')).reverse.dropWhile (fun c => c ≠ '}')).reverse

/-- Attempt `r'"NAME"\s*:\s*"([^"]*)"'` at the current position. -/
def tryFieldStringAt (name : List Char) (l : List Char) : Option (List Char) :=
  let pat := '"' :: (name ++ ['"'])
  if pat.isPrefixOf l then
    match (l.drop pat.length).dropWhile isReWs with
    | ':' :: r2 =>
      match r2.dropWhile isReWs with
      | '"' :: r3 =>
        match r3.dropWhile (fun c => c ≠ '"') with
        | '"' :: _ => some (r3.takeWhile (fun c => c ≠ '"'))
        | _ => none
      | _ => none
    | _ => none
  else none

/-- `re.search` for a quoted string field. -/
def searchFieldString (name : List Char) : List Char → Option (List Char)
  | [] => none
  | c :: rest =>
    match tryFieldStringAt name (c :: rest) with
    | some v => some v
    | none => searchFieldString name rest

/-- Character class `[0-9.]`. -/
def isNumDotChar (c : Char) : Bool := isDigitChar c || c = '.'

/-- Attempt `r'"confidence"\s*:\s*([0-9.]+)'` at the current position. -/
def tryConfidenceAt (l : List Char) : Option (List Char) :=
  let pat := '"' :: ("confidence".data ++ ['"'])
  if pat.isPrefixOf l then
    match (l.drop pat.length).dropWhile isReWs with
    | ':' :: r2 =>
      match (r2.dropWhile isReWs).takeWhile isNumDotChar with
      | [] => none
      | ds => some ds
    | _ => none
  else none

/-- `re.search` for the numeric confidence literal. -/
def searchConfidenceNum : List Char → Option (List Char)
  | [] => none
  | c :: rest =>
    match tryConfidenceAt (c :: rest) with
    | some v => some v
    | none => searchConfidenceNum rest

/-- Python `float()` applied to a match of `[0-9.]+`: succeeds exactly when
the text has at least one digit and at most one dot, yielding its exact
decimal value. -/
def pyFloatDigitsDots (l : List Char) : Option Rat :=
  if l.any isDigitChar && (l.filter (fun c => c = '.')).length ≤ 1 then
    let ip := l.takeWhile isDigitChar
    match l.dropWhile isDigitChar with
    | [] => some ((digitsToNat ip : Nat) : Rat)
    | '.' :: f =>
      some (((digitsToNat ip : Nat) : Rat) + ((digitsToNat f : Nat) : Rat) / (10 : Rat) ^ f.length)
    | _ => none
  else none

/-- Strategy 6: manual regex extraction of `analysis`, `root_cause` and
`confidence` from the raw response. Returns `none` when the block raises,
which happens exactly when `float()` fails on the matched confidence text. -/
def manualExtract (l : List Char) : Option Json :=
  let analysisV : Json :=
    match searchFieldString "analysis".data l with
    | some v => .str (String.mk v)
    | none => .str (String.mk (l.take 500))
  let rootCauseV : Json :=
    match searchFieldString "root_cause".data l with
    | some v => .str (String.mk v)
    | none => .str "Could not extract root cause"
  let confV : Option Json :=
    match searchConfidenceNum l with
    | some ds =>
      match pyFloatDigitsDots ds with
      | some q => some (.num q)
      | none => none
    | none => some (.num ((3 : Rat) / 10))
  match confV with
  | none => none
  | some cv =>
    some (.obj [("analysis", analysisV), ("root_cause", rootCauseV),
                ("confidence", cv),
                ("suggested_fix", .str "Manual review required - JSON parsing failed"),
                ("recommendations", .str "Check Ollama model output format")])

/-- Strategy 7: the final fallback dict wrapping the raw response. -/
def finalFallback (l : List Char) : Json :=
  .obj [("analysis", .str (String.mk l)),
        ("root_cause", .str "Could not parse structured response"),
        ("confidence", .num ((1 : Rat) / 5)),
        ("suggested_fix", .str "Manual review required - response parsing failed"),
        ("recommendations", .str "Consider using a different Ollama model or adjusting prompt"),
        ("raw_unparsed_response", .str (String.mk l))]

/-- `_parse_ollama_response` on a character list. `none` models the Python
`None` returned for a falsy (empty) response. -/
def parseOllamaResponseL (l : List Char) : Option Json :=
  if l.isEmpty then none
  else
    let candidate := chooseCandidate l
    match jsonLoadsL candidate with
    | some j => some j
    | none =>
      let cleaned := cleanCandidate candidate
      match (if cleaned.isEmpty then none else jsonLoadsL cleaned) with
      | some j => some j
      | none =>
        match manualExtract l with
        | some d => some d
        | none => some (finalFallback l)

/-- `_parse_ollama_response` on a string. -/
def parseOllamaResponse (s : String) : Option Json := parseOllamaResponseL s.data

/-- True when one of the JSON-loading strategies (1-5) succeeds, i.e. the
result of `_parse_ollama_response` is a verbatim `json.loads` value. -/
def jsonStrategyOk (l : List Char) : Bool :=
  let candidate := chooseCandidate l
  (jsonLoadsL candidate).isSome ||
    (let cleaned := cleanCandidate candidate
     !cleaned.isEmpty && (jsonLoadsL cleaned).isSome)

/-- The shape guaranteed for the manual-extraction and final-fallback results
of `_parse_ollama_response`: a dict carrying `analysis`, `root_cause` and a
numeric `confidence` that is either in `[0, 1]` (a defaulted 0.3 or 0.2) or
the regex-extracted numeric literal following `"confidence":` in the raw
text. -/
def fallbackShape (l : List Char) (j : Json) : Prop :=
  ∃ kvs, j = Json.obj kvs ∧
    (lookupStr kvs "analysis").isSome = true ∧
    (lookupStr kvs "root_cause").isSome = true ∧
    ∃ q, lookupStr kvs "confidence" = some (Json.num q) ∧
      (((0 : Rat) ≤ q ∧ q ≤ 1) ∨
        (searchConfidenceNum l).bind pyFloatDigitsDots = some q)

theorem finalFallback_shape (l : List Char) : fallbackShape l (finalFallback l) := by
  refine ⟨_, rfl, ?_, ?_, (1 : Rat) / 5, ?_, Or.inl (by norm_num)⟩ <;>
    simp [finalFallback, lookupStr]

theorem manualExtract_shape (l : List Char) (j : Json)
    (h : manualExtract l = some j) : fallbackShape l j := by
  unfold manualExtract at h
  cases h3 : searchConfidenceNum l with
  | none =>
    rw [h3] at h
    simp only [Option.some.injEq] at h
    refine ⟨_, h.symm, ?_, ?_, (3 : Rat) / 10, ?_, Or.inl (by norm_num)⟩ <;>
      simp [lookupStr]
  | some ds =>
    rw [h3] at h
    cases h4 : pyFloatDigitsDots ds with
    | none => simp [h4] at h
    | some q =>
      simp only [h4, Option.some.injEq] at h
      refine ⟨_, h.symm, ?_, ?_, q, ?_, Or.inr (by simp [h3, h4])⟩ <;>
        simp [lookupStr]

/-- The property claim C1 asserts of `_parse_ollama_response` at one input:
the result is a dict carrying at least `analysis`, `root_cause` and
`confidence`, with the confidence numeric and in the closed interval
`[0, 1]`. -/
def c1Property (s : String) : Prop :=
  ∃ kvs, parseOllamaResponse s = some (Json.obj kvs) ∧
    (lookupStr kvs "analysis").isSome = true ∧
    (lookupStr kvs "root_cause").isSome = true ∧
    ∃ q, lookupStr kvs "confidence" = some (Json.num q) ∧ (0 : Rat) ≤ q ∧ q ≤ 1

/-- Claim C1, counterexample: on the empty string `_parse_ollama_response`
returns Python `None` (the `if not response_text` guard fires), not a
HealingResult-shaped dict. -/
theorem c1_cex : ¬ c1Property "" := by
  rintro ⟨kvs, h, -⟩
  simp [parseOllamaResponse, parseOllamaResponseL] at h

/-- Claim C1, amended: `_parse_ollama_response` never raises, and for every
non-empty input it returns a value: either the verbatim result of a
successful JSON-loading strategy (which may be any JSON value, with no shape
or confidence-range guarantee), or a fallback dict that carries `analysis`,
`root_cause` and a numeric `confidence`; the defaulted confidences (0.3
manual, 0.2 final) lie in `[0, 1]`, while a regex-extracted confidence is
whatever numeric literal follows `"confidence":` in the raw text. For the
empty string the function returns `None` instead of a result. -/
theorem c1_amended (s : String) (hne : s ≠ "") :
    ∃ j, parseOllamaResponse s = some j ∧
      (jsonStrategyOk s.data = true ∨ fallbackShape s.data j) := by
  have hd : s.data.isEmpty = false := by
    cases hs : s.data with
    | nil => exact absurd (String.ext hs) hne
    | cons a t => rfl
  cases h1 : jsonLoadsL (chooseCandidate s.data) with
  | some j =>
    refine ⟨j, ?_, Or.inl ?_⟩
    · simp [parseOllamaResponse, parseOllamaResponseL, hd, h1]
    · simp [jsonStrategyOk, h1]
  | none =>
    by_cases he : (cleanCandidate (chooseCandidate s.data)).isEmpty
    case pos =>
      cases hm : manualExtract s.data with
      | some d =>
        refine ⟨d, ?_, Or.inr (manualExtract_shape s.data d hm)⟩
        simp [parseOllamaResponse, parseOllamaResponseL, hd, h1, he, hm]
      | none =>
        refine ⟨finalFallback s.data, ?_, Or.inr (finalFallback_shape s.data)⟩
        simp [parseOllamaResponse, parseOllamaResponseL, hd, h1, he, hm]
    case neg =>
      cases h2 : jsonLoadsL (cleanCandidate (chooseCandidate s.data)) with
      | some j =>
        refine ⟨j, ?_, Or.inl ?_⟩
        · simp [parseOllamaResponse, parseOllamaResponseL, hd, h1, he, h2]
        · simp [jsonStrategyOk, h1, he, h2]
      | none =>
        cases hm : manualExtract s.data with
        | some d =>
          refine ⟨d, ?_, Or.inr (manualExtract_shape s.data d hm)⟩
          simp [parseOllamaResponse, parseOllamaResponseL, hd, h1, he, h2, hm]
        | none =>
          refine ⟨finalFallback s.data, ?_, Or.inr (finalFallback_shape s.data)⟩
          simp [parseOllamaResponse, parseOllamaResponseL, hd, h1, he, h2, hm]

/-- Witness for `c1_amended` at the concrete input `"hello"`. -/
theorem c1_witness :
    ∃ j, parseOllamaResponse "hello" = some j ∧
      (jsonStrategyOk "hello".data = true ∨ fallbackShape "hello".data j) :=
  c1_amended "hello" (by decide)

/-- The confidence value read downstream by `generate_healing_report`:
`ai_response.get('confidence', 0)`. -/
def reportConfidence (kvs : List (String × Json)) : Json :=
  match lookupStr kvs "confidence" with
  | some v => v
  | none => Json.num 0

/-- The threshold comparison
`ai_response.get('confidence', 0) > self.confidence_threshold` performed by
`generate_healing_report`. `none` models the `TypeError` Python raises when
the stored confidence is neither a number nor a bool (Python bools compare
as 1/0). -/
def thresholdCheck (kvs : List (String × Json)) (threshold : Rat) : Option Bool :=
  match reportConfidence kvs with
  | Json.num q => some (decide (threshold < q))
  | Json.bool b => some (decide (threshold < if b then (1 : Rat) else 0))
  | _ => none

attribute [local semireducible] Rat.add Rat.mul Rat.inv Rat.sub Rat.ofScientific in
/-- Claim C7, counterexample: on the input `{"analysis": 1}` the parser
succeeds via JSON strategy 3 and returns the parsed dict verbatim, which
contains no `confidence` key at all — the claim that the parser's result
always contains a (defaulted) confidence value is false. -/
theorem c7_cex :
    parseOllamaResponse "\x7b\"analysis\": 1\x7d" =
      some (Json.obj [("analysis", Json.num 1)]) ∧
    jsonField (Json.obj [("analysis", Json.num 1)]) "confidence" = none :=
  ⟨by rfl, by rfl⟩

/-- Claim C7, amended: when every JSON-loading strategy fails, the fallback
dicts built by `_parse_ollama_response` always carry a numeric `confidence`,
and on them the downstream threshold comparison is total; moreover, when a
successfully-parsed dict lacks the `confidence` key, the downstream
`.get('confidence', 0)` default keeps the comparison total. (A
successfully-parsed dict can, however, carry a non-numeric confidence on
which the comparison raises.) -/
theorem c7_amended :
    (∀ (s : String) (j : Json) (θ : Rat), parseOllamaResponse s = some j →
        jsonStrategyOk s.data = false →
        ∃ kvs q, j = Json.obj kvs ∧
          lookupStr kvs "confidence" = some (Json.num q) ∧
          thresholdCheck kvs θ = some (decide (θ < q))) ∧
    (∀ (kvs : List (String × Json)) (θ : Rat),
        lookupStr kvs "confidence" = none →
        thresholdCheck kvs θ = some (decide (θ < (0 : Rat)))) := by
  constructor
  · intro s j θ hp hok
    by_cases hd : s.data.isEmpty
    case pos => simp [parseOllamaResponse, parseOllamaResponseL, hd] at hp
    case neg =>
      cases h1 : jsonLoadsL (chooseCandidate s.data) with
      | some _ => simp [jsonStrategyOk, h1] at hok
      | none =>
        have hshape : fallbackShape s.data j := by
          by_cases he : (cleanCandidate (chooseCandidate s.data)).isEmpty
          case pos =>
            cases hm : manualExtract s.data with
            | some d =>
              have : d = j := by
                simpa [parseOllamaResponse, parseOllamaResponseL, hd, h1, he, hm] using hp
              exact this ▸ manualExtract_shape s.data d hm
            | none =>
              have : finalFallback s.data = j := by
                simpa [parseOllamaResponse, parseOllamaResponseL, hd, h1, he, hm] using hp
              exact this ▸ finalFallback_shape s.data
          case neg =>
            cases h2 : jsonLoadsL (cleanCandidate (chooseCandidate s.data)) with
            | some _ => simp [jsonStrategyOk, h1, he, h2] at hok
            | none =>
              cases hm : manualExtract s.data with
              | some d =>
                have : d = j := by
                  simpa [parseOllamaResponse, parseOllamaResponseL, hd, h1, he, h2, hm] using hp
                exact this ▸ manualExtract_shape s.data d hm
              | none =>
                have : finalFallback s.data = j := by
                  simpa [parseOllamaResponse, parseOllamaResponseL, hd, h1, he, h2, hm] using hp
                exact this ▸ finalFallback_shape s.data
        obtain ⟨kvs, hj, -, -, q, hq, -⟩ := hshape
        exact ⟨kvs, q, hj, hq, by simp [thresholdCheck, reportConfidence, hq]⟩
  · intro kvs θ hnone
    simp [thresholdCheck, reportConfidence, hnone]

/-- Witness for `c7_amended`: the first conjunct applied at the plain-prose
input `"hello"` (every JSON strategy fails, the manual fallback carries
confidence 0.3), the second at the empty dict. -/
theorem c7_witness :
    (∃ kvs q, (Json.obj [("analysis", Json.str "hello"),
        ("root_cause", Json.str "Could not extract root cause"),
        ("confidence", Json.num ((3 : Rat) / 10)),
        ("suggested_fix", Json.str "Manual review required - JSON parsing failed"),
        ("recommendations", Json.str "Check Ollama model output format")]) = Json.obj kvs ∧
      lookupStr kvs "confidence" = some (Json.num q) ∧
      thresholdCheck kvs ((7 : Rat) / 10) = some (decide ((7 : Rat) / 10 < q))) ∧
    thresholdCheck [] ((7 : Rat) / 10) = some (decide ((7 : Rat) / 10 < (0 : Rat))) :=
  ⟨c7_amended.1 "hello" _ ((7 : Rat) / 10) rfl rfl, c7_amended.2 [] _ rfl⟩

theorem fenceJsonChars_eq :
    fenceJsonChars =
      Char.ofNat 96 :: Char.ofNat 96 :: Char.ofNat 96 :: 'j' :: 's' :: 'o' :: 'n' :: [] := rfl

theorem fenceChars_eq :
    fenceChars = Char.ofNat 96 :: Char.ofNat 96 :: Char.ofNat 96 :: [] := rfl

theorem isPrefixOf_cons_false {a c : Char} (as rest : List Char) (h : c ≠ a) :
    (a :: as).isPrefixOf (c :: rest) = false := by
  have hb : (a == c) = false := beq_eq_false_iff_ne.mpr (fun hac => h hac.symm)
  simp [List.isPrefixOf, hb]

theorem searchFencedJson_of_no_backtick (l : List Char)
    (h : Char.ofNat 96 ∉ l) : searchFencedJson l = none := by
  induction l with
  | nil => rfl
  | cons c rest ih =>
    have hc : c ≠ Char.ofNat 96 := fun hce => h (hce ▸ List.mem_cons_self c rest)
    have hrest : Char.ofNat 96 ∉ rest := fun hm => h (List.mem_cons_of_mem c hm)
    have hpre : fenceJsonChars.isPrefixOf (c :: rest) = false := by
      rw [fenceJsonChars_eq]; exact isPrefixOf_cons_false _ _ hc
    simp [searchFencedJson, tryFencedJsonAt, hpre, ih hrest]

theorem searchFencedAny_of_no_backtick (l : List Char)
    (h : Char.ofNat 96 ∉ l) : searchFencedAny l = none := by
  induction l with
  | nil => rfl
  | cons c rest ih =>
    have hc : c ≠ Char.ofNat 96 := fun hce => h (hce ▸ List.mem_cons_self c rest)
    have hrest : Char.ofNat 96 ∉ rest := fun hm => h (List.mem_cons_of_mem c hm)
    have hpre : fenceChars.isPrefixOf (c :: rest) = false := by
      rw [fenceChars_eq]; exact isPrefixOf_cons_false _ _ hc
    simp [searchFencedAny, tryFencedAnyAt, hpre, ih hrest]

theorem searchJsonLike_of_no_brace (l : List Char) (h : '{' ∉ l) :
    searchJsonLike l = none := by
  induction l with
  | nil => rfl
  | cons c rest ih =>
    have hc : c ≠ '{' := fun hce => h (hce ▸ List.mem_cons_self c rest)
    have hrest : '{' ∉ rest := fun hm => h (List.mem_cons_of_mem c hm)
    simp [searchJsonLike, hc, ih hrest]

theorem takeUpThrough_of_unique (x : Char) (m : List Char) (hx : x ∉ m) :
    takeUpThrough x (m ++ [x]) = some (m ++ [x], []) := by
  induction m with
  | nil => simp [takeUpThrough]
  | cons c rest ih =>
    have hc : c ≠ x := fun hce => hx (hce ▸ List.mem_cons_self c rest)
    have hrest : x ∉ rest := fun hm => hx (List.mem_cons_of_mem c hm)
    simp [takeUpThrough, hc, ih hrest]

theorem suffix_unique_last {x : Char} {m p r : List Char}
    (hsplit : p ++ r = m ++ [x]) (hx : x ∉ m) (hr : r ≠ []) :
    r = r.dropLast ++ [x] ∧ x ∉ p ∧ x ∉ r.dropLast := by
  have hdg : r.dropLast ++ [r.getLast hr] = r := List.dropLast_append_getLast hr
  have h2 : (p ++ r.dropLast) ++ [r.getLast hr] = m ++ [x] := by
    rw [List.append_assoc, hdg]; exact hsplit
  obtain ⟨h4, h5⟩ := List.append_inj' h2 rfl
  have hlast : r.getLast hr = x := by simpa using h5
  refine ⟨by rw [← hlast]; exact hdg.symm, ?_, ?_⟩
  · exact fun hmem => hx (h4 ▸ List.mem_append_left _ hmem)
  · exact fun hmem => hx (h4 ▸ List.mem_append_right _ hmem)

theorem jsonLikeAfterBrace_closed (m u : List Char) (hclose : '}' ∉ m)
    (h : jsonLikeAfterBrace (m ++ ['}']) = some u) : u = m ++ ['}'] := by
  unfold jsonLikeAfterBrace at h
  split at h
  next r2 heq1 =>
    split at h
    next => exact absurd h (by simp)
    next key hkey =>
      split at h
      next r4 heq3 =>
        split at h
        next u' rest' heq4 =>
          simp only [Option.some.injEq] at h
          have h1 : List.takeWhile isReWs (m ++ ['}']) ++
              List.dropWhile isReWs (m ++ ['}']) = m ++ ['}'] :=
            List.takeWhile_append_dropWhile _ _
          rw [heq1] at h1
          have h2 : List.takeWhile (fun c => decide (c ≠ '"')) r2 ++
              List.dropWhile (fun c => decide (c ≠ '"')) r2 = r2 :=
            List.takeWhile_append_dropWhile _ _
          rw [heq3] at h2
          have teq : List.takeWhile isReWs (m ++ ['}']) ++
              '"' :: (List.takeWhile (fun c => decide (c ≠ '"')) r2 ++
                '"' :: ':' :: r4) = m ++ ['}'] := by
            rw [h2]; exact h1
          have hr4ne : r4 ≠ [] := by
            intro h0; rw [h0] at heq4; simp [takeUpThrough] at heq4
          have hsplit : (List.takeWhile isReWs (m ++ ['}']) ++
              '"' :: List.takeWhile (fun c => decide (c ≠ '"')) r2 ++ ['"', ':']) ++ r4 =
              m ++ ['}'] := by
            simpa [List.append_assoc] using teq
          obtain ⟨hr4eq, -, hdlnot⟩ := suffix_unique_last hsplit hclose hr4ne
          have htut : takeUpThrough '}' r4 = some (r4, []) := by
            have hx := takeUpThrough_of_unique '}' r4.dropLast hdlnot
            rw [← hr4eq] at hx
            exact hx
          rw [htut] at heq4
          simp only [Option.some.injEq, Prod.mk.injEq] at heq4
          rw [← heq4.1] at h
          rw [← h]
          exact teq
        next => exact absurd h (by simp)
      next => exact absurd h (by simp)
  next => exact absurd h (by simp)

theorem pyStripL_closed (m : List Char) :
    pyStripL ('{' :: m ++ ['}']) = '{' :: m ++ ['}'] := by
  have hwo : isPyStripWs '{' = false := by decide
  have hwc : isPyStripWs '}' = false := by decide
  unfold pyStripL
  have h1 : List.dropWhile isPyStripWs ('{' :: m ++ ['}']) = '{' :: m ++ ['}'] := by
    simp [List.dropWhile, hwo]
  rw [h1]
  have h2 : ('{' :: m ++ ['}']).reverse = '}' :: (m.reverse ++ ['{']) := by simp
  rw [h2]
  have h3 : List.dropWhile isPyStripWs ('}' :: (m.reverse ++ ['{'])) =
      '}' :: (m.reverse ++ ['{']) := by
    simp [List.dropWhile, hwc]
  rw [h3, ← h2, List.reverse_reverse]

theorem chooseCandidate_closed (m : List Char)
    (hnb : Char.ofNat 96 ∉ ('{' :: m ++ ['}']))
    (hob : '{' ∉ m) (hcb : '}' ∉ m) :
    chooseCandidate ('{' :: m ++ ['}']) = '{' :: m ++ ['}'] := by
  have hs1 := searchFencedJson_of_no_backtick _ hnb
  have hs2 := searchFencedAny_of_no_backtick _ hnb
  have hnb3 : '{' ∉ (m ++ ['}']) := by
    intro hm
    rcases List.mem_append.mp hm with hm1 | hm2
    · exact hob hm1
    · simp at hm2
  cases hj : jsonLikeAfterBrace (m ++ ['}']) with
  | none =>
    have hsj : searchJsonLike ('{' :: m ++ ['}']) = none := by
      simp [searchJsonLike, hj, searchJsonLike_of_no_brace _ hnb3]
    unfold chooseCandidate
    rw [hs1, hs2, hsj]
    exact pyStripL_closed m
  | some u =>
    have hu : u = m ++ ['}'] := jsonLikeAfterBrace_closed m u hcb hj
    have hsj : searchJsonLike ('{' :: m ++ ['}']) = some ('{' :: m ++ ['}']) := by
      simp [searchJsonLike, hj, hu]
    unfold chooseCandidate
    rw [hs1, hs2, hsj]

attribute [local semireducible] Rat.add Rat.mul Rat.inv Rat.sub Rat.ofScientific in
/-- Claim C9, counterexample: the well-formed JSON text
`{"analysis": "x}", "root_cause": "r", "confidence": 0.5, "suggested_fix":
"f", "updated_test_code": "u", "recommendations": "c"}` matches the response
schema (here shown by `json.loads` succeeding with `suggested_fix = "f"` and
`confidence = 0.5`), yet `_parse_ollama_response` does not reproduce it:
strategy 3's non-greedy regex truncates the candidate at the first `}` (the
one inside the `analysis` string), JSON parsing of the truncated candidate
fails, and the manual-extraction fallback replaces `suggested_fix` with its
fixed message. -/
theorem c9_cex :
    jsonStrField ((jsonLoads ("\x7b\"analysis\": \"x\x7d\", \"root_cause\": \"r\", " ++
        "\"confidence\": 0.5, \"suggested_fix\": \"f\", " ++
        "\"updated_test_code\": \"u\", \"recommendations\": \"c\"\x7d")).getD Json.null)
      "suggested_fix" = some "f" ∧
    jsonNumField ((jsonLoads ("\x7b\"analysis\": \"x\x7d\", \"root_cause\": \"r\", " ++
        "\"confidence\": 0.5, \"suggested_fix\": \"f\", " ++
        "\"updated_test_code\": \"u\", \"recommendations\": \"c\"\x7d")).getD Json.null)
      "confidence" = some ((1 : Rat) / 2) ∧
    jsonStrField ((parseOllamaResponse ("\x7b\"analysis\": \"x\x7d\", \"root_cause\": \"r\", " ++
        "\"confidence\": 0.5, \"suggested_fix\": \"f\", " ++
        "\"updated_test_code\": \"u\", \"recommendations\": \"c\"\x7d")).getD Json.null)
      "suggested_fix" = some "Manual review required - JSON parsing failed" :=
  ⟨by rfl, by rfl, by rfl⟩

/-- Claim C9, amended: the round-trip holds for every well-formed JSON text
matching the response schema in which the only `{` is the leading character,
the only `}` is the final character, and no backtick occurs: on such texts
`_parse_ollama_response` returns the `json.loads` value verbatim, so every
schema field is reproduced exactly. (The counterexample shows the
restriction is necessary: a `}` inside a field value breaks the round
trip.) -/
theorem c9_amended (s : String) (kvs : List (String × Json)) (m : List Char)
    (hload : jsonLoads s = some (Json.obj kvs))
    (hshape : s.data = '{' :: m ++ ['}'])
    (hnb : Char.ofNat 96 ∉ s.data)
    (hob : '{' ∉ m) (hcb : '}' ∉ m)
    (_hfa : (lookupStr kvs "analysis").isSome = true)
    (_hfr : (lookupStr kvs "root_cause").isSome = true)
    (_hfc : (lookupStr kvs "confidence").isSome = true)
    (_hfs : (lookupStr kvs "suggested_fix").isSome = true)
    (_hfu : (lookupStr kvs "updated_test_code").isSome = true)
    (_hfre : (lookupStr kvs "recommendations").isSome = true) :
    parseOllamaResponse s = some (Json.obj kvs) := by
  have hd : s.data.isEmpty = false := by rw [hshape]; rfl
  have hcc : chooseCandidate s.data = s.data := by
    rw [hshape]
    exact chooseCandidate_closed m (hshape ▸ hnb) hob hcb
  have hl : jsonLoadsL (chooseCandidate s.data) = some (Json.obj kvs) := by
    rw [hcc]; exact hload
  simp [parseOllamaResponse, parseOllamaResponseL, hd, hl]

attribute [local semireducible] Rat.add Rat.mul Rat.inv Rat.sub Rat.ofScientific in
/-- Witness for `c9_amended` at a concrete schema-matching JSON text. -/
theorem c9_witness :
    parseOllamaResponse ("\x7b\"analysis\":\"a\",\"root_cause\":\"r\",\"confidence\":0.5," ++
        "\"suggested_fix\":\"f\",\"updated_test_code\":\"u\",\"recommendations\":\"c\"\x7d") =
      some (Json.obj [("analysis", Json.str "a"), ("root_cause", Json.str "r"),
        ("confidence", Json.num ((1 : Rat) / 2)), ("suggested_fix", Json.str "f"),
        ("updated_test_code", Json.str "u"), ("recommendations", Json.str "c")]) :=
  c9_amended _ _
    (("\x7b\"analysis\":\"a\",\"root_cause\":\"r\",\"confidence\":0.5," ++
        "\"suggested_fix\":\"f\",\"updated_test_code\":\"u\",\"recommendations\":\"c\"\x7d").data.drop 1).dropLast
    (by rfl) (by decide) (by decide) (by decide) (by decide)
    (by rfl) (by rfl) (by rfl) (by rfl) (by rfl) (by rfl)

/-- The record stored in `_ollama_service._pending_contexts` for a failing
test by `_capture_ai_healing_context`. The captured page artefacts
(screenshot path, page title, test source) are summarised by the test name
and error message; the claims only depend on the entry's presence. -/
structure PendingContext where
  testName : String
  errorMessage : String
deriving Repr, DecidableEq, Inhabited

/-- The run configuration consumed by the failure hook: the
`AI_HEALING_ENABLED` flag, the `--reruns` retry budget
(`item.config.getoption("reruns") or 0`), the outcome of
`ensure_ollama_running()`, and the transport outcome of `_query_ollama`
(`none` models a transport error returning Python `None`). -/
structure HookConfig where
  enabled : Bool
  maxReruns : Nat
  ollamaAvailable : Bool
  modelResponse : Option String
deriving Repr, DecidableEq, Inhabited

/-- The process-wide mutable state touched by the failure hook:
`_ai_healing_fail_counts`, `_ollama_service._pending_contexts`, and two
event counters modelling the externally observable side effects: the number
of `call_ollama_healing` invocations and of generated healing reports. -/
structure HookState where
  failCounts : List (String × Nat)
  pendingContexts : List (String × PendingContext)
  healCalls : Nat
  reports : Nat
deriving Repr, DecidableEq, Inhabited

/-- The state before any failure is recorded. -/
def emptyHookState : HookState := ⟨[], [], 0, 0⟩

/-- Python dict assignment `d[k] = v` for an arbitrary value type:
overwrite in place, append when absent. -/
def setEntry {α : Type} (kvs : List (String × α)) (k : String) (v : α) :
    List (String × α) :=
  match kvs with
  | [] => [(k, v)]
  | (k', v') :: rest =>
    if k' = k then (k', v) :: rest else (k', v') :: setEntry rest k v

/-- Python dict deletion `del d[k]`. Dict keys are unique, so removal by
filtering coincides with removing the single entry. -/
def removeKey {α : Type} (kvs : List (String × α)) (k : String) :
    List (String × α) :=
  kvs.filter (fun e => decide (e.1 ≠ k))

/-- `_ai_healing_fail_counts[test_key] += 1` on the `defaultdict(int)`. -/
def bumpCount (counts : List (String × Nat)) (k : String) : List (String × Nat) :=
  setEntry counts k ((lookupStr counts k).getD 0 + 1)

/-- `_capture_ai_healing_context(item, page, error_message)`: returns
immediately (capturing nothing) when healing is disabled; otherwise stores a
pending context keyed by `item.nodeid`. File-system side effects (screenshot
writing) are modelled only through the stored record. -/
def captureAiHealingContext (cfg : HookConfig) (st : HookState)
    (testKey testName errorMessage : String) : HookState :=
  if !cfg.enabled then st
  else
    let newPendings := setEntry st.pendingContexts testKey ⟨testName, errorMessage⟩
    { st with pendingContexts := newPendings }

/-- The dict `{"error": msg}`. -/
def errorDict (msg : String) : Json := Json.obj [("error", Json.str msg)]

/-- `call_ollama_healing`: queries the model (the transport outcome is
`cfg.modelResponse`), parses the response with `_parse_ollama_response`, and
adds the raw text under `raw_ollama_response`. Item assignment on a non-dict
parse result raises `TypeError`, caught by the function's outer `except` and
turned into an error dict, so the function always returns a dict. -/
def callOllamaHealing (cfg : HookConfig) : Json :=
  match cfg.modelResponse with
  | none => errorDict "No response from Ollama"
  | some raw =>
    if raw = "" then errorDict "No response from Ollama"
    else
      match parseOllamaResponse raw with
      | none => errorDict "Failed to parse Ollama response"
      | some (Json.obj kvs) =>
        Json.obj (pyDictInsert kvs "raw_ollama_response" (Json.str raw))
      | some _ => errorDict "TypeError: item assignment on non-dict response"

/-- The hook's defensive checks on the healing response: `if not ai_response`
(an empty dict is falsy) and the `error` / `error_type` key checks. The
`isinstance(ai_response, str)` branch is unreachable because
`call_ollama_healing` always returns a dict. -/
def aiResponseBad (j : Json) : Bool :=
  match j with
  | Json.obj kvs =>
    kvs.isEmpty || (lookupStr kvs "error").isSome || (lookupStr kvs "error_type").isSome
  | _ => true

/-- The `rep.when == "call" and rep.failed` branch of
`pytest_runtest_makereport`: increment the failure counter under the lock,
always invoke `_capture_ai_healing_context`, and on finality
(`fail_count > max_reruns`) run the healing flow. The early `return`
statements (healing disabled, Ollama unavailable, falsy/error response)
leave the counter in place; only a completed attempt (report generated, or
no pending context found) deletes the counter entry. Report generation and
the healing call are modelled by the `reports` and `healCalls` counters. -/
def recordFailure (cfg : HookConfig) (st : HookState)
    (testKey testName errorMessage : String) : HookState :=
  let counts := bumpCount st.failCounts testKey
  let failCount := (lookupStr counts testKey).getD 0
  let st1 : HookState := { st with failCounts := counts }
  let st2 := captureAiHealingContext cfg st1 testKey testName errorMessage
  if failCount > cfg.maxReruns then
    if !cfg.enabled then st2
    else if !cfg.ollamaAvailable then st2
    else
      let contextData :=
        match lookupStr st2.pendingContexts testKey with
        | some c => some c
        | none => lookupStr st2.pendingContexts testName
      match contextData with
      | some _ =>
        let st3 : HookState := { st2 with healCalls := st2.healCalls + 1 }
        if aiResponseBad (callOllamaHealing cfg) then st3
        else
          let newPendings := removeKey (removeKey st3.pendingContexts testKey) testName
          let st4 : HookState := { st3 with reports := st3.reports + 1, pendingContexts := newPendings }
          { st4 with failCounts := removeKey st4.failCounts testKey }
      | none =>
        { st2 with failCounts := removeKey st2.failCounts testKey }
  else st2

/-- A sequence of recorded failures, each given as
(nodeid, test name, error message). -/
def runFailures (cfg : HookConfig) : HookState → List (String × String × String) → HookState
  | st, [] => st
  | st, ev :: rest => runFailures cfg (recordFailure cfg st ev.1 ev.2.1 ev.2.2) rest

theorem lookupStr_setEntry_self {α : Type} (kvs : List (String × α)) (k : String) (v : α) :
    lookupStr (setEntry kvs k v) k = some v := by
  induction kvs with
  | nil => simp [setEntry, lookupStr]
  | cons p rest ih =>
    obtain ⟨k', v'⟩ := p
    by_cases h : k' = k <;> simp [setEntry, lookupStr, h, ih]

theorem lookupStr_removeKey_self {α : Type} (kvs : List (String × α)) (k : String) :
    lookupStr (removeKey kvs k) k = none := by
  induction kvs with
  | nil => rfl
  | cons p rest ih =>
    obtain ⟨k', v'⟩ := p
    by_cases h : k' = k <;> simp [removeKey, List.filter, lookupStr, h] at ih ⊢ <;>
      simpa [removeKey] using ih

theorem lookupStr_bumpCount_self (counts : List (String × Nat)) (k : String) :
    lookupStr (bumpCount counts k) k = some ((lookupStr counts k).getD 0 + 1) :=
  lookupStr_setEntry_self counts k _

theorem recordFailure_disabled (cfg : HookConfig) (st : HookState) (k nm e : String)
    (h : cfg.enabled = false) :
    recordFailure cfg st k nm e = { st with failCounts := bumpCount st.failCounts k } := by
  simp [recordFailure, captureAiHealingContext, h]

theorem recordFailure_retry (cfg : HookConfig) (st : HookState) (k nm e : String)
    (h : ¬((lookupStr st.failCounts k).getD 0 + 1 > cfg.maxReruns)) :
    recordFailure cfg st k nm e =
      captureAiHealingContext cfg { st with failCounts := bumpCount st.failCounts k } k nm e := by
  simp [recordFailure, lookupStr_bumpCount_self, h]

theorem recordFailure_final_unavailable (cfg : HookConfig) (st : HookState) (k nm e : String)
    (hfin : (lookupStr st.failCounts k).getD 0 + 1 > cfg.maxReruns)
    (hen : cfg.enabled = true) (hav : cfg.ollamaAvailable = false) :
    recordFailure cfg st k nm e =
      captureAiHealingContext cfg { st with failCounts := bumpCount st.failCounts k } k nm e := by
  simp [recordFailure, lookupStr_bumpCount_self, hfin, hen, hav]

theorem recordFailure_final_bad (cfg : HookConfig) (st : HookState) (k nm e : String)
    (hfin : (lookupStr st.failCounts k).getD 0 + 1 > cfg.maxReruns)
    (hen : cfg.enabled = true) (hav : cfg.ollamaAvailable = true)
    (hbad : aiResponseBad (callOllamaHealing cfg) = true) :
    recordFailure cfg st k nm e =
      { failCounts := bumpCount st.failCounts k,
        pendingContexts := setEntry st.pendingContexts k ⟨nm, e⟩,
        healCalls := st.healCalls + 1, reports := st.reports } := by
  simp [recordFailure, captureAiHealingContext, lookupStr_bumpCount_self,
    lookupStr_setEntry_self, hfin, hen, hav, hbad]

theorem recordFailure_final_good (cfg : HookConfig) (st : HookState) (k nm e : String)
    (hfin : (lookupStr st.failCounts k).getD 0 + 1 > cfg.maxReruns)
    (hen : cfg.enabled = true) (hav : cfg.ollamaAvailable = true)
    (hgood : aiResponseBad (callOllamaHealing cfg) = false) :
    recordFailure cfg st k nm e =
      { failCounts := removeKey (bumpCount st.failCounts k) k,
        pendingContexts := removeKey (removeKey (setEntry st.pendingContexts k ⟨nm, e⟩) k) nm,
        healCalls := st.healCalls + 1, reports := st.reports + 1 } := by
  simp [recordFailure, captureAiHealingContext, lookupStr_bumpCount_self,
    lookupStr_setEntry_self, hfin, hen, hav, hgood]

theorem captureAiHealingContext_failCounts (cfg : HookConfig) (st : HookState)
    (k nm e : String) :
    (captureAiHealingContext cfg st k nm e).failCounts = st.failCounts := by
  unfold captureAiHealingContext
  split <;> rfl

/-- Claim C2: starting from a zero counter under retry budget 2, with healing
enabled, the service available and the model producing a parseable non-error
response, three consecutive recorded failures yield counts 1 and 2 with
healing skipped, then count 3 triggers healing exactly once, generates the
report, and deletes the counter entry. -/
theorem c2_scenario (cfg : HookConfig) (t nm e : String)
    (hen : cfg.enabled = true) (hmr : cfg.maxReruns = 2)
    (hav : cfg.ollamaAvailable = true)
    (hresp : aiResponseBad (callOllamaHealing cfg) = false) :
    (let s1 := recordFailure cfg emptyHookState t nm e
     let s2 := recordFailure cfg s1 t nm e
     let s3 := recordFailure cfg s2 t nm e
     lookupStr s1.failCounts t = some 1 ∧ s1.healCalls = 0 ∧
     lookupStr s2.failCounts t = some 2 ∧ s2.healCalls = 0 ∧
     s3.healCalls = 1 ∧ s3.reports = 1 ∧
     lookupStr s3.failCounts t = none) := by
  have hs1 : recordFailure cfg emptyHookState t nm e =
      ⟨[(t, 1)], [(t, ⟨nm, e⟩)], 0, 0⟩ := by
    rw [recordFailure_retry]
    · simp [captureAiHealingContext, hen, emptyHookState, bumpCount, setEntry, lookupStr]
    · simp [emptyHookState, lookupStr, hmr]
  have hs2 : recordFailure cfg (⟨[(t, 1)], [(t, ⟨nm, e⟩)], 0, 0⟩ : HookState) t nm e =
      ⟨[(t, 2)], [(t, ⟨nm, e⟩)], 0, 0⟩ := by
    rw [recordFailure_retry]
    · simp [captureAiHealingContext, hen, bumpCount, setEntry, lookupStr]
    · simp [lookupStr, hmr]
  have hs3 : recordFailure cfg (⟨[(t, 2)], [(t, ⟨nm, e⟩)], 0, 0⟩ : HookState) t nm e =
      ⟨[], [], 1, 1⟩ := by
    rw [recordFailure_final_good _ _ _ _ _ (by simp [lookupStr, hmr]) hen hav hresp]
    simp [bumpCount, setEntry, removeKey, lookupStr, List.filter]
  simp only [hs1, hs2, hs3]
  simp [lookupStr]

/-- Witness for `c2_scenario`: test id `T`, budget 2, model responding with
the JSON text `{"analysis": "ok"}`. -/
theorem c2_witness :
    (let cfg : HookConfig := ⟨true, 2, true, some "\x7b\"analysis\": \"ok\"\x7d"⟩
     let s1 := recordFailure cfg emptyHookState "T" "T" "boom"
     let s2 := recordFailure cfg s1 "T" "T" "boom"
     let s3 := recordFailure cfg s2 "T" "T" "boom"
     lookupStr s1.failCounts "T" = some 1 ∧ s1.healCalls = 0 ∧
     lookupStr s2.failCounts "T" = some 2 ∧ s2.healCalls = 0 ∧
     s3.healCalls = 1 ∧ s3.reports = 1 ∧
     lookupStr s3.failCounts "T" = none) :=
  c2_scenario ⟨true, 2, true, some "\x7b\"analysis\": \"ok\"\x7d"⟩ "T" "T" "boom"
    rfl rfl rfl (by rfl)

/-- Claim C3, counterexample: with healing disabled and retry budget 0, one
recorded failure reaches finality (count 1 exceeds budget 0), yet the
counter entry is not removed — the disabled-healing `return` fires before
the deletion, so the entry survives with count 1. -/
theorem c3_cex :
    lookupStr (recordFailure ⟨false, 0, true, none⟩ emptyHookState "T" "T" "boom").failCounts
      "T" = some 1 ∧ 1 > (0 : Nat) := by
  constructor
  · rw [recordFailure_disabled _ _ _ _ _ rfl]
    simp [emptyHookState, bumpCount, setEntry, lookupStr]
  · norm_num

/-- Claim C3, amended: the per-test failure count increases by exactly one on
each recorded failure; the counter entry is removed when finality is reached
with healing enabled, the service available, and a parseable non-error model
response (the healing attempt runs to completion); under any other
configuration — healing disabled, service unavailable, or a
missing/unparseable/error model response — the entry is retained despite
finality, still carrying the incremented count. -/
theorem c3_amended (cfg : HookConfig) (st : HookState) (k nm e : String) :
    (¬((lookupStr st.failCounts k).getD 0 + 1 > cfg.maxReruns ∧ cfg.enabled = true ∧
        cfg.ollamaAvailable = true ∧ aiResponseBad (callOllamaHealing cfg) = false) →
      lookupStr (recordFailure cfg st k nm e).failCounts k =
        some ((lookupStr st.failCounts k).getD 0 + 1)) ∧
    (((lookupStr st.failCounts k).getD 0 + 1 > cfg.maxReruns ∧ cfg.enabled = true ∧
        cfg.ollamaAvailable = true ∧ aiResponseBad (callOllamaHealing cfg) = false) →
      lookupStr (recordFailure cfg st k nm e).failCounts k = none) := by
  constructor
  · intro hnot
    by_cases hfin : (lookupStr st.failCounts k).getD 0 + 1 > cfg.maxReruns
    · cases hen : cfg.enabled
      · rw [recordFailure_disabled _ _ _ _ _ hen]
        exact lookupStr_bumpCount_self st.failCounts k
      · cases hav : cfg.ollamaAvailable
        · rw [recordFailure_final_unavailable _ _ _ _ _ hfin hen hav,
            captureAiHealingContext_failCounts]
          exact lookupStr_bumpCount_self st.failCounts k
        · cases hbad : aiResponseBad (callOllamaHealing cfg)
          · exact absurd ⟨hfin, hen, hav, hbad⟩ hnot
          · rw [recordFailure_final_bad _ _ _ _ _ hfin hen hav hbad]
            exact lookupStr_bumpCount_self st.failCounts k
    · rw [recordFailure_retry _ _ _ _ _ hfin, captureAiHealingContext_failCounts]
      exact lookupStr_bumpCount_self st.failCounts k
  · rintro ⟨hfin, hen, hav, hgood⟩
    rw [recordFailure_final_good _ _ _ _ _ hfin hen hav hgood]
    exact lookupStr_removeKey_self _ k

/-- Witness for `c3_amended`: the retention conjunct at a disabled-healing
configuration and the removal conjunct at a fully working one. -/
theorem c3_witness :
    lookupStr (recordFailure ⟨false, 0, true, none⟩ emptyHookState "T" "T" "boom").failCounts
      "T" = some ((lookupStr emptyHookState.failCounts "T").getD 0 + 1) ∧
    lookupStr (recordFailure ⟨true, 0, true, some "\x7b\"analysis\": \"ok\"\x7d"⟩
      emptyHookState "T" "T" "boom").failCounts "T" = none :=
  ⟨(c3_amended ⟨false, 0, true, none⟩ emptyHookState "T" "T" "boom").1
      (by intro h; exact absurd h.2.1 (by decide)),
    (c3_amended ⟨true, 0, true, some "\x7b\"analysis\": \"ok\"\x7d"⟩
        emptyHookState "T" "T" "boom").2
      ⟨by simp [emptyHookState, lookupStr], rfl, rfl, by rfl⟩⟩

/-- Claim C4: with the healing-enabled flag false, no model invocation (and
no report) ever occurs, for any sequence of recorded failures, any retry
budget (zero or positive), and any starting state. -/
theorem c4_disabled_no_model_call (cfg : HookConfig) (st : HookState)
    (events : List (String × String × String)) (h : cfg.enabled = false) :
    (runFailures cfg st events).healCalls = st.healCalls ∧
    (runFailures cfg st events).reports = st.reports := by
  induction events generalizing st with
  | nil => exact ⟨rfl, rfl⟩
  | cons ev rest ih =>
    simp only [runFailures]
    rw [recordFailure_disabled cfg st ev.1 ev.2.1 ev.2.2 h]
    exact ih _

/-- Witness for `c4_disabled_no_model_call`: three failures of test `T`
under a disabled configuration with budget 2 produce no healing call. -/
theorem c4_witness :
    (runFailures ⟨false, 2, true, some "resp"⟩ emptyHookState
      [("T", "T", "e1"), ("T", "T", "e2"), ("T", "T", "e3")]).healCalls = 0 ∧
    (runFailures ⟨false, 2, true, some "resp"⟩ emptyHookState
      [("T", "T", "e1"), ("T", "T", "e2"), ("T", "T", "e3")]).reports = 0 :=
  c4_disabled_no_model_call ⟨false, 2, true, some "resp"⟩ emptyHookState
    [("T", "T", "e1"), ("T", "T", "e2"), ("T", "T", "e3")] rfl

/-- Claim C6, counterexample: with healing disabled, a recorded failure
produces no pending context entry — `_capture_ai_healing_context` returns
at its `AI_HEALING_ENABLED` guard before storing anything, so capture does
not happen "regardless of whether healing is enabled". -/
theorem c6_cex :
    lookupStr (recordFailure ⟨false, 2, true, none⟩ emptyHookState "T" "T" "boom").pendingContexts
      "T" = none := by
  rw [recordFailure_disabled _ _ _ _ _ rfl]
  rfl

/-- Claim C6, amended: when healing is enabled, the capture routine stores a
pending context entry for the failing test id on every recorded failure,
regardless of retry state or finality; the entry survives the hook except
when a healing attempt completes in the same invocation, in which case it
has been consumed and a report was generated. When healing is disabled no
entry is produced. -/
theorem c6_amended (cfg : HookConfig) (st : HookState) (k nm e : String)
    (hen : cfg.enabled = true) :
    (lookupStr (captureAiHealingContext cfg st k nm e).pendingContexts k).isSome = true ∧
    ((lookupStr (recordFailure cfg st k nm e).pendingContexts k).isSome = true ∨
      (recordFailure cfg st k nm e).reports = st.reports + 1) := by
  constructor
  · simp [captureAiHealingContext, hen, lookupStr_setEntry_self]
  · by_cases hfin : (lookupStr st.failCounts k).getD 0 + 1 > cfg.maxReruns
    · cases hav : cfg.ollamaAvailable
      · left
        rw [recordFailure_final_unavailable _ _ _ _ _ hfin hen hav]
        simp [captureAiHealingContext, hen, lookupStr_setEntry_self]
      · cases hbad : aiResponseBad (callOllamaHealing cfg)
        · right
          rw [recordFailure_final_good _ _ _ _ _ hfin hen hav hbad]
        · left
          rw [recordFailure_final_bad _ _ _ _ _ hfin hen hav hbad]
          simp [lookupStr_setEntry_self]
    · left
      rw [recordFailure_retry _ _ _ _ _ hfin]
      simp [captureAiHealingContext, hen, lookupStr_setEntry_self]

/-- Witness for `c6_amended` at an enabled configuration whose transport
fails (`modelResponse = none`): the pending entry is present after the
failure. -/
theorem c6_witness :
    (lookupStr (captureAiHealingContext ⟨true, 2, true, none⟩ emptyHookState
      "T" "T" "boom").pendingContexts "T").isSome = true ∧
    ((lookupStr (recordFailure ⟨true, 2, true, none⟩ emptyHookState
      "T" "T" "boom").pendingContexts "T").isSome = true ∨
      (recordFailure ⟨true, 2, true, none⟩ emptyHookState "T" "T" "boom").reports =
        emptyHookState.reports + 1) :=
  c6_amended ⟨true, 2, true, none⟩ emptyHookState "T" "T" "boom" rfl

/-- The fallible page operations awaited by `capture_failure_context`:
`page.url()`, `page.title()`, `page.screenshot(...)`, `page.content()`.
`Except.error e` models the operation raising with exception text `e`. -/
structure PageModel where
  url : Except String String
  title : Except String String
  screenshot : Except String Unit
  content : Except String String
deriving Repr, Inhabited

/-- The context dict built by `capture_failure_context`, with one field per
key the function can store; `none` means the key is absent. -/
structure FailureContext where
  test_name : String
  error_message : String
  error_type : String
  test_docstring : String
  url : Option String
  title : Option String
  screenshot_path : Option String
  dom : Option String
  capture_error : Option String
deriving Repr, DecidableEq, Inhabited

/-- `capture_failure_context(page, error, test_name, test_function)`. The
four base fields are stored first; then one `try` block awaits url and title
(stored together by a single `context.update`), takes the screenshot, and
captures the truncated DOM; a single `except` records any exception in
`capture_error`. Returns the context and the `screenshot_path` local, which
is already non-None once the path is computed, even if the screenshot call
itself raises. -/
def captureFailureContext (page : Option PageModel)
    (errorMessage errorType testName docstring : String) :
    FailureContext × Option String :=
  let base : FailureContext :=
    { test_name := testName, error_message := errorMessage, error_type := errorType,
      test_docstring := docstring, url := none, title := none,
      screenshot_path := none, dom := none, capture_error := none }
  match page with
  | none => (base, none)
  | some p =>
    match p.url with
    | .error ex => ({ base with capture_error := some ex }, none)
    | .ok u =>
      match p.title with
      | .error ex => ({ base with capture_error := some ex }, none)
      | .ok ti =>
        let ctx1 := { base with url := some u, title := some ti }
        let spath := "screenshots/" ++ testName ++ "_ai_healing.png"
        match p.screenshot with
        | .error ex => ({ ctx1 with capture_error := some ex }, some spath)
        | .ok _ =>
          let ctx2 := { ctx1 with screenshot_path := some spath }
          match p.content with
          | .error ex => ({ ctx2 with capture_error := some ex }, some spath)
          | .ok dom =>
            let domStored := if dom.length > 5000 then dom.take 5000 ++ "..." else dom
            ({ ctx2 with dom := some domStored }, some spath)

/-- Claim C5, counterexample: a page whose `url()` raises while
`screenshot()` and `content()` would succeed yields a context with no
screenshot and no DOM — the sub-captures share one guard, so an early
failure prevents the later captures. -/
theorem c5_cex :
    (captureFailureContext (some ⟨Except.error "url boom", Except.ok "Hudl",
        Except.ok (), Except.ok "<html></html>"⟩) "msg" "AssertionError"
        "test_login" "doc").1.dom = none ∧
    (captureFailureContext (some ⟨Except.error "url boom", Except.ok "Hudl",
        Except.ok (), Except.ok "<html></html>"⟩) "msg" "AssertionError"
        "test_login" "doc").1.screenshot_path = none ∧
    (captureFailureContext (some ⟨Except.error "url boom", Except.ok "Hudl",
        Except.ok (), Except.ok "<html></html>"⟩) "msg" "AssertionError"
        "test_login" "doc").1.capture_error = some "url boom" :=
  ⟨rfl, rfl, rfl⟩

/-- Claim C5, amended: the sub-captures of `capture_failure_context` sit in a
single guard executed in order url/title, screenshot, DOM: an error in any
step is recorded in `capture_error` and never raised, context creation
always completes with the base fields present, but a failing step skips all
later sub-captures (a url or title failure leaves url, title, screenshot and
DOM uncaptured; a screenshot failure leaves the screenshot path and DOM
uncaptured; a DOM failure leaves only the DOM uncaptured); when every step
succeeds all artefacts are captured and `capture_error` is absent. -/
theorem c5_amended (p : PageModel) (em et tn ds : String) :
    (let r := captureFailureContext (some p) em et tn ds
     r.1.test_name = tn ∧ r.1.error_message = em ∧ r.1.error_type = et ∧
     r.1.test_docstring = ds ∧
     (∀ ex, p.url = Except.error ex →
        r.1.capture_error = some ex ∧ r.1.url = none ∧ r.1.title = none ∧
        r.1.screenshot_path = none ∧ r.1.dom = none) ∧
     (∀ u ex, p.url = Except.ok u → p.title = Except.error ex →
        r.1.capture_error = some ex ∧ r.1.url = none ∧ r.1.title = none ∧
        r.1.screenshot_path = none ∧ r.1.dom = none) ∧
     (∀ u t ex, p.url = Except.ok u → p.title = Except.ok t →
        p.screenshot = Except.error ex →
        r.1.capture_error = some ex ∧ r.1.url = some u ∧ r.1.title = some t ∧
        r.1.screenshot_path = none ∧ r.1.dom = none) ∧
     (∀ u t ex, p.url = Except.ok u → p.title = Except.ok t →
        p.screenshot = Except.ok () → p.content = Except.error ex →
        r.1.capture_error = some ex ∧ r.1.url = some u ∧ r.1.title = some t ∧
        r.1.screenshot_path = some ("screenshots/" ++ tn ++ "_ai_healing.png") ∧
        r.1.dom = none) ∧
     ((∃ u, p.url = Except.ok u) → (∃ t, p.title = Except.ok t) →
      p.screenshot = Except.ok () → (∃ d, p.content = Except.ok d) →
        r.1.capture_error = none ∧ r.1.url.isSome = true ∧ r.1.title.isSome = true ∧
        r.1.screenshot_path = some ("screenshots/" ++ tn ++ "_ai_healing.png") ∧
        r.1.dom.isSome = true)) := by
  obtain ⟨u, t, s, c⟩ := p
  cases u <;> cases t <;> cases s <;> cases c <;>
    simp [captureFailureContext]

/-- Witness for `c5_amended` at a fully succeeding page. -/
theorem c5_witness :
    (let r := captureFailureContext (some ⟨Except.ok "https://www.hudl.com/login",
        Except.ok "Log In", Except.ok (), Except.ok "<html></html>"⟩)
        "msg" "AssertionError" "test_login" "doc"
     r.1.test_name = "test_login" ∧ r.1.error_message = "msg" ∧
     r.1.error_type = "AssertionError" ∧ r.1.test_docstring = "doc" ∧
     (∀ ex, (Except.ok "https://www.hudl.com/login" : Except String String) =
        Except.error ex →
        r.1.capture_error = some ex ∧ r.1.url = none ∧ r.1.title = none ∧
        r.1.screenshot_path = none ∧ r.1.dom = none) ∧
     (∀ u ex, (Except.ok "https://www.hudl.com/login" : Except String String) =
        Except.ok u →
        (Except.ok "Log In" : Except String String) = Except.error ex →
        r.1.capture_error = some ex ∧ r.1.url = none ∧ r.1.title = none ∧
        r.1.screenshot_path = none ∧ r.1.dom = none) ∧
     (∀ u t ex, (Except.ok "https://www.hudl.com/login" : Except String String) =
        Except.ok u →
        (Except.ok "Log In" : Except String String) = Except.ok t →
        (Except.ok () : Except String Unit) = Except.error ex →
        r.1.capture_error = some ex ∧ r.1.url = some u ∧ r.1.title = some t ∧
        r.1.screenshot_path = none ∧ r.1.dom = none) ∧
     (∀ u t ex, (Except.ok "https://www.hudl.com/login" : Except String String) =
        Except.ok u →
        (Except.ok "Log In" : Except String String) = Except.ok t →
        (Except.ok () : Except String Unit) = Except.ok () →
        (Except.ok "<html></html>" : Except String String) = Except.error ex →
        r.1.capture_error = some ex ∧ r.1.url = some u ∧ r.1.title = some t ∧
        r.1.screenshot_path = some ("screenshots/" ++ "test_login" ++ "_ai_healing.png") ∧
        r.1.dom = none) ∧
     ((∃ u, (Except.ok "https://www.hudl.com/login" : Except String String) = Except.ok u) →
      (∃ t, (Except.ok "Log In" : Except String String) = Except.ok t) →
      (Except.ok () : Except String Unit) = Except.ok () →
      (∃ d, (Except.ok "<html></html>" : Except String String) = Except.ok d) →
        r.1.capture_error = none ∧ r.1.url.isSome = true ∧ r.1.title.isSome = true ∧
        r.1.screenshot_path = some ("screenshots/" ++ "test_login" ++ "_ai_healing.png") ∧
        r.1.dom.isSome = true)) :=
  c5_amended ⟨Except.ok "https://www.hudl.com/login", Except.ok "Log In",
    Except.ok (), Except.ok "<html></html>"⟩ "msg" "AssertionError" "test_login" "doc"

/-- One value of a metrics `asdict`: a string, a number (Python int and
float modelled as exact rationals), or Python `None`. -/
inductive PyVal where
  | str (s : String) : PyVal
  | num (q : Rat) : PyVal
  | noneVal : PyVal
deriving Repr, DecidableEq, Inhabited

/-- The `PerformanceMetrics` dataclass: `url` and `timestamp` are always
present, every other field is optional. Heap sizes, request counts and byte
counts are Python ints, modelled like the float fields as rationals. -/
structure PerformanceMetrics where
  url : String
  timestamp : Rat
  page_load_time : Option Rat
  dom_content_loaded : Option Rat
  first_contentful_paint : Option Rat
  largest_contentful_paint : Option Rat
  first_input_delay : Option Rat
  cumulative_layout_shift : Option Rat
  time_to_first_byte : Option Rat
  js_heap_used_size : Option Rat
  js_heap_total_size : Option Rat
  task_duration : Option Rat
  network_requests : Option Rat
  total_bytes_transferred : Option Rat
deriving Repr, DecidableEq, Inhabited

/-- An optional numeric field as it appears in `asdict`. -/
def optVal (v : Option Rat) : PyVal :=
  match v with
  | some q => PyVal.num q
  | none => PyVal.noneVal

/-- `dataclasses.asdict` on a `PerformanceMetrics` record: the fields in
declaration order. -/
def asdict (mtr : PerformanceMetrics) : List (String × PyVal) :=
  [("url", PyVal.str mtr.url),
   ("timestamp", PyVal.num mtr.timestamp),
   ("page_load_time", optVal mtr.page_load_time),
   ("dom_content_loaded", optVal mtr.dom_content_loaded),
   ("first_contentful_paint", optVal mtr.first_contentful_paint),
   ("largest_contentful_paint", optVal mtr.largest_contentful_paint),
   ("first_input_delay", optVal mtr.first_input_delay),
   ("cumulative_layout_shift", optVal mtr.cumulative_layout_shift),
   ("time_to_first_byte", optVal mtr.time_to_first_byte),
   ("js_heap_used_size", optVal mtr.js_heap_used_size),
   ("js_heap_total_size", optVal mtr.js_heap_total_size),
   ("task_duration", optVal mtr.task_duration),
   ("network_requests", optVal mtr.network_requests),
   ("total_bytes_transferred", optVal mtr.total_bytes_transferred)]

/-- The numeric content of an `asdict` value:
`isinstance(value, (int, float)) and value is not None`. -/
def numOf (v : PyVal) : Option Rat :=
  match v with
  | PyVal.num q => some q
  | _ => none

/-- One step of the accumulation loop of `get_average_metrics`: a numeric
value adds to `metrics_sum[key]` and bumps `metrics_count[key]`; strings and
`None` are skipped. -/
def addMetricEntry (acc : List (String × Rat) × List (String × Nat))
    (entry : String × PyVal) : List (String × Rat) × List (String × Nat) :=
  match entry.2 with
  | PyVal.num q =>
    (setEntry acc.1 entry.1 ((lookupStr acc.1 entry.1).getD 0 + q),
     setEntry acc.2 entry.1 ((lookupStr acc.2 entry.1).getD 0 + 1))
  | _ => acc

/-- The final comprehension of `get_average_metrics`:
`{key: metrics_sum[key] / metrics_count[key] for key in metrics_sum if
metrics_count[key] > 0}`. -/
def avgOfSums (sums : List (String × Rat)) (cnt : String → Nat) :
    List (String × Rat) :=
  sums.filterMap (fun kv =>
    if 0 < cnt kv.1 then some (kv.1, kv.2 / (cnt kv.1 : Rat)) else none)

/-- `PerformanceMonitorAsync.get_average_metrics`. -/
def get_average_metrics (history : List PerformanceMetrics) :
    List (String × Rat) :=
  if history.isEmpty then []
  else
    let sc := history.foldl (fun acc mtr => (asdict mtr).foldl addMetricEntry acc) ([], [])
    avgOfSums sc.1 (fun k => (lookupStr sc.2 k).getD 0)

/-- The value of field `k` in a record, when present and numeric. -/
def fieldNum (k : String) (mtr : PerformanceMetrics) : Option Rat :=
  (lookupStr (asdict mtr) k).bind numOf

/-- The numeric values stored under key `k` in an entry list. -/
def numsIn (k : String) (es : List (String × PyVal)) : List Rat :=
  es.filterMap (fun e => if e.1 = k then numOf e.2 else none)

theorem lookupStr_setEntry_ne {α : Type} (kvs : List (String × α)) (k k' : String)
    (v : α) (h : k ≠ k') :
    lookupStr (setEntry kvs k v) k' = lookupStr kvs k' := by
  induction kvs with
  | nil => simp [setEntry, lookupStr, h]
  | cons p rest ih =>
    obtain ⟨k1, v1⟩ := p
    by_cases h1 : k1 = k
    · subst h1
      simp [setEntry, lookupStr, h]
    · simp [setEntry, lookupStr, h1, ih]

theorem foldl_addMetricEntry (k : String) (es : List (String × PyVal)) :
    ∀ acc : List (String × Rat) × List (String × Nat),
    lookupStr (es.foldl addMetricEntry acc).1 k =
      (if (numsIn k es).isEmpty then lookupStr acc.1 k
       else some ((lookupStr acc.1 k).getD 0 + (numsIn k es).sum)) ∧
    lookupStr (es.foldl addMetricEntry acc).2 k =
      (if (numsIn k es).isEmpty then lookupStr acc.2 k
       else some ((lookupStr acc.2 k).getD 0 + (numsIn k es).length)) := by
  induction es with
  | nil => intro acc; simp [numsIn]
  | cons e rest ih =>
    intro acc
    obtain ⟨k1, v1⟩ := e
    by_cases hk : k1 = k
    · subst hk
      cases hv : v1 with
      | num q =>
        subst hv
        have hstep : addMetricEntry acc (k1, PyVal.num q) =
            (setEntry acc.1 k1 ((lookupStr acc.1 k1).getD 0 + q),
             setEntry acc.2 k1 ((lookupStr acc.2 k1).getD 0 + 1)) := rfl
        have hn : numsIn k1 ((k1, PyVal.num q) :: rest) = q :: numsIn k1 rest := by
          simp [numsIn, numOf]
        rw [List.foldl_cons, hstep]
        obtain ⟨ih1, ih2⟩ := ih _
        rw [hn]
        constructor
        · rw [ih1, lookupStr_setEntry_self]
          cases hnl : numsIn k1 rest with
          | nil => simp [hnl]
          | cons a as => simp [hnl, add_assoc]
        · rw [ih2, lookupStr_setEntry_self]
          cases hnl : numsIn k1 rest with
          | nil => simp [hnl]
          | cons a as =>
            simp [hnl]
            omega
      | str s =>
        subst hv
        have hn : numsIn k1 ((k1, PyVal.str s) :: rest) = numsIn k1 rest := by
          simp [numsIn, numOf]
        rw [List.foldl_cons]
        rw [hn]
        exact ih _
      | noneVal =>
        subst hv
        have hn : numsIn k1 ((k1, PyVal.noneVal) :: rest) = numsIn k1 rest := by
          simp [numsIn, numOf]
        rw [List.foldl_cons]
        rw [hn]
        exact ih _
    · have hn : numsIn k ((k1, v1) :: rest) = numsIn k rest := by
        simp [numsIn, hk]
      rw [List.foldl_cons, hn]
      cases hv : v1 with
      | num q =>
        subst hv
        obtain ⟨ih1, ih2⟩ := ih (addMetricEntry acc (k1, PyVal.num q))
        have ha1 : lookupStr (addMetricEntry acc (k1, PyVal.num q)).1 k = lookupStr acc.1 k :=
          lookupStr_setEntry_ne _ _ _ _ hk
        have ha2 : lookupStr (addMetricEntry acc (k1, PyVal.num q)).2 k = lookupStr acc.2 k :=
          lookupStr_setEntry_ne _ _ _ _ hk
        rw [ih1, ih2, ha1, ha2]
        exact ⟨rfl, rfl⟩
      | str s => exact ih _
      | noneVal => exact ih _

theorem numsIn_nil_of_not_mem (k : String) (es : List (String × PyVal))
    (h : k ∉ es.map Prod.fst) : numsIn k es = [] := by
  induction es with
  | nil => rfl
  | cons e rest ih =>
    have hk : e.1 ≠ k := fun he => h (by rw [List.map_cons, ← he]; exact List.mem_cons_self _ _)
    have hrest : k ∉ rest.map Prod.fst :=
      fun hm => h (by rw [List.map_cons]; exact List.mem_cons_of_mem _ hm)
    have htail := ih hrest
    simp only [numsIn] at htail ⊢
    simpa [List.filterMap_cons, hk] using htail

theorem numsIn_of_nodup (k : String) (es : List (String × PyVal))
    (h : (es.map Prod.fst).Nodup) :
    numsIn k es = ((lookupStr es k).bind numOf).toList := by
  induction es with
  | nil => rfl
  | cons e rest ih =>
    obtain ⟨k1, v1⟩ := e
    simp only [List.map_cons, List.nodup_cons] at h
    have hnotmem : k1 ∉ rest.map Prod.fst := by
      intro hm
      obtain ⟨p, hp, hpe⟩ := List.mem_map.mp hm
      exact h.1 (hpe ▸ (List.mem_map.mpr ⟨p, hp, rfl⟩))
    by_cases hk : k1 = k
    · subst hk
      have hznil : numsIn k1 rest = [] := numsIn_nil_of_not_mem k1 rest hnotmem
      have hstep : numsIn k1 ((k1, v1) :: rest) = (numOf v1).toList ++ numsIn k1 rest := by
        cases hv : numOf v1 <;> simp [numsIn, List.filterMap_cons, hv]
      rw [hstep, hznil, List.append_nil]
      simp [lookupStr]
    · have hstep : numsIn k ((k1, v1) :: rest) = numsIn k rest := by
        simp [numsIn, List.filterMap_cons, hk]
      rw [hstep, ih h.2]
      simp [lookupStr, hk]

theorem asdict_keys_nodup (mtr : PerformanceMetrics) :
    ((asdict mtr).map Prod.fst).Nodup := by
  have hk : (asdict mtr).map Prod.fst =
      ["url", "timestamp", "page_load_time", "dom_content_loaded",
       "first_contentful_paint", "largest_contentful_paint", "first_input_delay",
       "cumulative_layout_shift", "time_to_first_byte", "js_heap_used_size",
       "js_heap_total_size", "task_duration", "network_requests",
       "total_bytes_transferred"] := rfl
  rw [hk]
  decide

theorem numsIn_asdict (k : String) (mtr : PerformanceMetrics) :
    numsIn k (asdict mtr) = (fieldNum k mtr).toList := by
  rw [fieldNum]
  exact numsIn_of_nodup k (asdict mtr) (asdict_keys_nodup mtr)

theorem foldl_history (k : String) (history : List PerformanceMetrics) :
    ∀ acc : List (String × Rat) × List (String × Nat),
    lookupStr (history.foldl (fun acc mtr => (asdict mtr).foldl addMetricEntry acc) acc).1 k =
      (if (history.filterMap (fieldNum k)).isEmpty then lookupStr acc.1 k
       else some ((lookupStr acc.1 k).getD 0 + (history.filterMap (fieldNum k)).sum)) ∧
    lookupStr (history.foldl (fun acc mtr => (asdict mtr).foldl addMetricEntry acc) acc).2 k =
      (if (history.filterMap (fieldNum k)).isEmpty then lookupStr acc.2 k
       else some ((lookupStr acc.2 k).getD 0 + (history.filterMap (fieldNum k)).length)) := by
  induction history with
  | nil => intro acc; simp
  | cons mtr rest ih =>
    intro acc
    obtain ⟨hin1, hin2⟩ := foldl_addMetricEntry k (asdict mtr) acc
    rw [numsIn_asdict] at hin1 hin2
    obtain ⟨ihr1, ihr2⟩ := ih ((asdict mtr).foldl addMetricEntry acc)
    rw [List.foldl_cons]
    cases hf : fieldNum k mtr with
    | none =>
      have hl : List.filterMap (fieldNum k) (mtr :: rest) = List.filterMap (fieldNum k) rest := by
        simp [List.filterMap_cons, hf]
      rw [hl]
      rw [hf] at hin1 hin2
      simp only [Option.toList] at hin1 hin2
      simp only [List.isEmpty_nil, if_true] at hin1 hin2
      rw [ihr1, ihr2, hin1, hin2]
      exact ⟨rfl, rfl⟩
    | some q =>
      have hl : List.filterMap (fieldNum k) (mtr :: rest) =
          q :: List.filterMap (fieldNum k) rest := by
        simp [List.filterMap_cons, hf]
      rw [hl]
      rw [hf] at hin1 hin2
      simp only [Option.toList] at hin1 hin2
      simp only [List.isEmpty_cons, if_false, Bool.false_eq_true] at hin1 hin2
      rw [ihr1, ihr2, hin1, hin2]
      constructor
      · cases hnl : List.filterMap (fieldNum k) rest with
        | nil => simp [hnl]
        | cons a as => simp [hnl, add_assoc]
      · cases hnl : List.filterMap (fieldNum k) rest with
        | nil => simp [hnl]
        | cons a as =>
          simp [hnl]
          omega

theorem lookupStr_avgOfSums (sums : List (String × Rat)) (cnt : String → Nat) (k : String) :
    lookupStr (avgOfSums sums cnt) k =
      (if 0 < cnt k then (lookupStr sums k).map (fun v => v / (cnt k : Rat)) else none) := by
  induction sums with
  | nil => simp [avgOfSums, lookupStr]
  | cons p rest ih =>
    obtain ⟨k1, v1⟩ := p
    by_cases hk : k1 = k
    · subst hk
      by_cases hc : 0 < cnt k1 <;>
        simp [avgOfSums, List.filterMap_cons, lookupStr, hc] <;>
        simpa [avgOfSums, hc] using ih
    · by_cases hc : 0 < cnt k1 <;>
        simp [avgOfSums, List.filterMap_cons, lookupStr, hc, hk] <;>
        simpa [avgOfSums, hc] using ih

/-- Claim C8: `get_average_metrics` maps every field that is present (as a
number) in at least one record to exactly the arithmetic mean of its present
values; a field absent (or non-numeric) in every record does not appear in
the result; with no recorded metrics the result is the empty mapping. -/
theorem c8_average_metrics (history : List PerformanceMetrics) (k : String) :
    lookupStr (get_average_metrics history) k =
      (if (history.filterMap (fieldNum k)).isEmpty then none
       else some ((history.filterMap (fieldNum k)).sum /
         ((history.filterMap (fieldNum k)).length : Rat))) := by
  by_cases hh : history.isEmpty
  · have : history = [] := List.isEmpty_iff.mp hh
    subst this
    simp [get_average_metrics, lookupStr]
  · obtain ⟨hs, hc⟩ := foldl_history k history (([], []) :
      List (String × Rat) × List (String × Nat))
    rw [get_average_metrics]
    rw [if_neg (by simp [hh])]
    rw [lookupStr_avgOfSums]
    cases hnl : history.filterMap (fieldNum k) with
    | nil =>
      rw [hnl] at hs hc
      simp only [List.isEmpty_nil, if_true] at hs hc
      simp [hc, hs, lookupStr, hnl]
    | cons a as =>
      rw [hnl] at hs hc
      simp only [List.isEmpty_cons, Bool.false_eq_true, if_false] at hs hc
      simp only [lookupStr, Option.getD_none] at hs hc
      rw [hc, hs]
      simp [hnl]

/-- The timestamped filename computed by `save_metrics_to_json`. -/
def jsonTimestampedName (filename : Option String) (ts : String) : String :=
  match filename with
  | none => "performance_metrics_" ++ ts ++ ".json"
  | some f =>
    if !f.endsWith ".json" then f ++ "_" ++ ts ++ ".json"
    else f.dropRight 5 ++ "_" ++ ts ++ ".json"

/-- The timestamped filename computed by `save_metrics_to_csv`. -/
def csvTimestampedName (filename : Option String) (ts : String) : String :=
  match filename with
  | none => "performance_metrics_" ++ ts ++ ".csv"
  | some f =>
    if !f.endsWith ".csv" then f ++ "_" ++ ts ++ ".csv"
    else f.dropRight 4 ++ "_" ++ ts ++ ".csv"

/-- `PerformanceMonitorAsync.save_metrics_to_json`: computes the timestamped
filepath and always opens the file and dumps the list of metric dicts (an
empty JSON array for an empty history). The file write is modelled by
returning the dumped payload alongside the returned path; `ts` stands for
the wall-clock timestamp string. -/
def save_metrics_to_json (history : List PerformanceMetrics)
    (filename : Option String) (ts outputDir : String) :
    String × Option (List (List (String × PyVal))) :=
  (outputDir ++ "/" ++ jsonTimestampedName filename ts, some (history.map asdict))

/-- `PerformanceMonitorAsync.save_metrics_to_csv`: computes the timestamped
filepath, but opens and writes the file only when the history is non-empty
(`if self.metrics_history:`); the payload is the header row (field names of
the first record) plus one dict per record. The path is returned in either
case. -/
def save_metrics_to_csv (history : List PerformanceMetrics)
    (filename : Option String) (ts outputDir : String) :
    String × Option (List String × List (List (String × PyVal))) :=
  (outputDir ++ "/" ++ csvTimestampedName filename ts,
   match history with
   | [] => none
   | mtr :: _ => some ((asdict mtr).map Prod.fst, history.map asdict))

/-- Claim C10: with an empty metrics history, `save_metrics_to_csv` returns
its timestamped path but writes nothing (no payload), while
`save_metrics_to_json` still writes a file whose content is the empty JSON
array. -/
theorem c10_empty_history_exports (filename : Option String) (ts outputDir : String) :
    save_metrics_to_csv [] filename ts outputDir =
      (outputDir ++ "/" ++ csvTimestampedName filename ts, none) ∧
    save_metrics_to_json [] filename ts outputDir =
      (outputDir ++ "/" ++ jsonTimestampedName filename ts, some []) :=
  ⟨rfl, rfl⟩
